import Mathlib

/-!
Verification of the SNA graph-analytics and recommendation system.

The repository's shipped sources are the React frontend (App.js, api.js,
ProfileCard.jsx, GraphView.jsx, TopRecommendations.jsx) together with project
documentation; the backend core (graph_ops.py, recommendation.py) is described
by the specification and the in-repo report but its source is not shipped.
Definitions for the backend core are therefore modelled from the spec, as
marked in their doc comments; frontend definitions are translated from the
JavaScript sources.
-/

namespace SNA

/-- Relation kinds of edges, from the spec's fixed enumeration. -/
inductive EdgeKind where
  | OWNS
  | CONTRIBUTES_TO
  | COLLABORATES_WITH
  | HAS_TAG
  | HAS_PROFILE
  deriving DecidableEq, Repr

/-- An edge of the graph snapshot: ordered pair of node ids plus a kind. -/
structure GEdge where
  src : String
  tgt : String
  kind : EdgeKind
  deriving DecidableEq, Repr

/-- A graph snapshot: the node id set and edge set loaded at analysis start. -/
structure Snapshot where
  nodes : List String
  edges : List GEdge
  deriving Repr

/-- Modelled from the spec: undirected adjacency used by the Structural
Metrics Engine (graph_ops.py, not shipped) — edges are treated as undirected
and edge kind is ignored. -/
def adjacent (g : Snapshot) (u w : String) : Bool :=
  g.edges.any (fun e => (e.src = u ∧ e.tgt = w) ∨ (e.src = w ∧ e.tgt = u))

/-- Modelled from the spec: the undirected neighbor set of a node, as distinct
other nodes of the snapshot connected by at least one edge of any kind. -/
def neighborList (g : Snapshot) (v : String) : List String :=
  g.nodes.filter (fun w => w ≠ v ∧ adjacent g v w)

/-- Degree of a node: number of distinct undirected neighbors. -/
def degree (g : Snapshot) (v : String) : ℕ :=
  (neighborList g v).toFinset.card

/-- Modelled from the spec: degree centrality as computed by the Structural
Metrics Engine (graph_ops.py, not shipped): degree(v) / (n−1) with n the node
count, and 0 when n ≤ 1. -/
def degreeCentrality (g : Snapshot) (v : String) : ℚ :=
  if g.nodes.length ≤ 1 then 0
  else (degree g v : ℚ) / ((g.nodes.length : ℚ) - 1)

lemma mem_neighborList {g : Snapshot} {v w : String} :
    w ∈ neighborList g v ↔ w ∈ g.nodes ∧ w ≠ v ∧ adjacent g v w := by
  simp [neighborList, List.mem_filter, and_assoc]

lemma adjacent_iff {g : Snapshot} {u w : String} :
    adjacent g u w = true ↔
      ∃ e ∈ g.edges, (e.src = u ∧ e.tgt = w) ∨ (e.src = w ∧ e.tgt = u) := by
  simp [adjacent, List.any_eq_true]

lemma two_le_length_of_mem {l : List String} {a b : String}
    (ha : a ∈ l) (hb : b ∈ l) (hab : a ≠ b) : 2 ≤ l.length := by
  have hsub : ({a, b} : Finset String) ⊆ l.toFinset := by
    intro x hx
    rcases Finset.mem_insert.1 hx with h | h
    · exact List.mem_toFinset.2 (h ▸ ha)
    · exact List.mem_toFinset.2 ((Finset.mem_singleton.1 h) ▸ hb)
  have hcard : ({a, b} : Finset String).card = 2 := Finset.card_pair hab
  calc 2 = ({a, b} : Finset String).card := hcard.symm
    _ ≤ l.toFinset.card := Finset.card_le_card hsub
    _ ≤ l.length := l.toFinset_card_le

lemma degree_le_sub_one {g : Snapshot} {v : String}
    (hnd : g.nodes.Nodup) (hv : v ∈ g.nodes) :
    degree g v ≤ g.nodes.length - 1 := by
  have hsub : (neighborList g v).toFinset ⊆ g.nodes.toFinset.erase v := by
    intro w hw
    rw [List.mem_toFinset] at hw
    rcases mem_neighborList.1 hw with ⟨hwn, hne, _⟩
    exact Finset.mem_erase.2 ⟨hne, List.mem_toFinset.2 hwn⟩
  calc degree g v ≤ (g.nodes.toFinset.erase v).card := Finset.card_le_card hsub
    _ = g.nodes.toFinset.card - 1 := Finset.card_erase_of_mem (List.mem_toFinset.2 hv)
    _ = g.nodes.length - 1 := by rw [List.toFinset_card_of_nodup hnd]

lemma degree_eq_zero_iff {g : Snapshot} {v : String}
    (hend : ∀ e ∈ g.edges, e.src ∈ g.nodes ∧ e.tgt ∈ g.nodes)
    (hloop : ∀ e ∈ g.edges, e.src ≠ e.tgt) :
    degree g v = 0 ↔ ∀ e ∈ g.edges, e.src ≠ v ∧ e.tgt ≠ v := by
  have hnil : degree g v = 0 ↔ neighborList g v = [] := by
    unfold degree
    rw [Finset.card_eq_zero, List.toFinset_eq_empty_iff]
  rw [hnil]
  constructor
  · intro hempty e he
    constructor
    · intro hsrc
      have hw : e.tgt ∈ neighborList g v := by
        refine mem_neighborList.2 ⟨(hend e he).2, ?_, ?_⟩
        · intro h; exact hloop e he (hsrc.trans h.symm)
        · exact adjacent_iff.2 ⟨e, he, Or.inl ⟨hsrc, rfl⟩⟩
      rw [hempty] at hw
      exact absurd hw (List.not_mem_nil _)
    · intro htgt
      have hw : e.src ∈ neighborList g v := by
        refine mem_neighborList.2 ⟨(hend e he).1, ?_, ?_⟩
        · intro h; exact hloop e he (h.trans htgt.symm)
        · exact adjacent_iff.2 ⟨e, he, Or.inr ⟨rfl, htgt⟩⟩
      rw [hempty] at hw
      exact absurd hw (List.not_mem_nil _)
  · intro hinc
    rw [List.eq_nil_iff_forall_not_mem]
    intro w hw
    rcases mem_neighborList.1 hw with ⟨_, _, hadj⟩
    rcases adjacent_iff.1 hadj with ⟨e, he, hcase⟩
    rcases hcase with ⟨h1, _⟩ | ⟨_, h2⟩
    · exact (hinc e he).1 h1
    · exact (hinc e he).2 h2

/-- C3: for a duplicate-free snapshot whose edges are loop-free with
endpoints in the node set, degree centrality of a present node lies in
[0,1], is 0 exactly when the node has no incident edges, equals
degree/(n−1) when n > 1, and is 0 when n ≤ 1. -/
theorem degreeCentrality_props (g : Snapshot) (v : String)
    (hnd : g.nodes.Nodup)
    (hend : ∀ e ∈ g.edges, e.src ∈ g.nodes ∧ e.tgt ∈ g.nodes)
    (hloop : ∀ e ∈ g.edges, e.src ≠ e.tgt)
    (hv : v ∈ g.nodes) :
    (0 ≤ degreeCentrality g v ∧ degreeCentrality g v ≤ 1) ∧
    (degreeCentrality g v = 0 ↔ ∀ e ∈ g.edges, e.src ≠ v ∧ e.tgt ≠ v) ∧
    (1 < g.nodes.length →
      degreeCentrality g v = (degree g v : ℚ) / ((g.nodes.length : ℚ) - 1)) ∧
    (g.nodes.length ≤ 1 → degreeCentrality g v = 0) := by
  by_cases hn : g.nodes.length ≤ 1
  · have hdc : degreeCentrality g v = 0 := by
      unfold degreeCentrality; rw [if_pos hn]
    refine ⟨⟨by rw [hdc], by rw [hdc]; norm_num⟩, ?_, ?_, fun _ => hdc⟩
    · rw [hdc]
      simp only [true_iff]
      intro e he
      constructor
      · intro hsrc
        have h2 : 2 ≤ g.nodes.length :=
          two_le_length_of_mem ((hend e he).1) ((hend e he).2) (hloop e he)
        omega
      · intro htgt
        have h2 : 2 ≤ g.nodes.length :=
          two_le_length_of_mem ((hend e he).1) ((hend e he).2) (hloop e he)
        omega
    · intro h1; omega
  · push_neg at hn
    have hform : degreeCentrality g v = (degree g v : ℚ) / ((g.nodes.length : ℚ) - 1) := by
      unfold degreeCentrality; rw [if_neg (by omega)]
    have hden : (0 : ℚ) < (g.nodes.length : ℚ) - 1 := by
      have : (1 : ℚ) < (g.nodes.length : ℚ) := by exact_mod_cast hn
      linarith
    have hdegle : (degree g v : ℚ) ≤ (g.nodes.length : ℚ) - 1 := by
      have h := degree_le_sub_one hnd hv
      have hcast : ((g.nodes.length - 1 : ℕ) : ℚ) = (g.nodes.length : ℚ) - 1 := by
        have : 1 ≤ g.nodes.length := by omega
        push_cast [Nat.cast_sub this]
        ring
      calc (degree g v : ℚ) ≤ ((g.nodes.length - 1 : ℕ) : ℚ) := by exact_mod_cast h
        _ = (g.nodes.length : ℚ) - 1 := hcast
    refine ⟨⟨?_, ?_⟩, ?_, fun _ => hform, ?_⟩
    · rw [hform]
      exact div_nonneg (by positivity) (le_of_lt hden)
    · rw [hform]
      exact (div_le_one hden).2 hdegle
    · rw [hform]
      rw [div_eq_zero_iff]
      have hne : (g.nodes.length : ℚ) - 1 ≠ 0 := ne_of_gt hden
      constructor
      · intro h
        rcases h with h | h
        · have hdeg : degree g v = 0 := by exact_mod_cast h
          exact (degree_eq_zero_iff hend hloop).1 hdeg
        · exact absurd h hne
      · intro h
        left
        have hdeg : degree g v = 0 := (degree_eq_zero_iff hend hloop).2 h
        exact_mod_cast hdeg
    · intro hcontra; omega

/-- Witness for C3 at a concrete two-node snapshot with one edge. -/
theorem degreeCentrality_props_witness :
    (0 ≤ degreeCentrality ⟨["a", "b"], [⟨"a", "b", EdgeKind.OWNS⟩]⟩ "a" ∧
     degreeCentrality ⟨["a", "b"], [⟨"a", "b", EdgeKind.OWNS⟩]⟩ "a" ≤ 1) ∧
    (degreeCentrality ⟨["a", "b"], [⟨"a", "b", EdgeKind.OWNS⟩]⟩ "a" = 0 ↔
      ∀ e ∈ [(⟨"a", "b", EdgeKind.OWNS⟩ : GEdge)], e.src ≠ "a" ∧ e.tgt ≠ "a") ∧
    (1 < ([("a" : String), "b"]).length →
      degreeCentrality ⟨["a", "b"], [⟨"a", "b", EdgeKind.OWNS⟩]⟩ "a" =
        (degree ⟨["a", "b"], [⟨"a", "b", EdgeKind.OWNS⟩]⟩ "a" : ℚ) /
          ((([("a" : String), "b"]).length : ℚ) - 1)) ∧
    (([("a" : String), "b"]).length ≤ 1 →
      degreeCentrality ⟨["a", "b"], [⟨"a", "b", EdgeKind.OWNS⟩]⟩ "a" = 0) :=
  degreeCentrality_props ⟨["a", "b"], [⟨"a", "b", EdgeKind.OWNS⟩]⟩ "a"
    (by simp) (by simp) (by simp) (by simp)

/-- Dot product of two embedding vectors represented as rational lists. -/
def dot (u v : List ℚ) : ℚ :=
  (List.zipWith (fun a b => a * b) u v).sum

/-- Squared Euclidean norm of an embedding vector. -/
def normSq (u : List ℚ) : ℚ := dot u u

/-- Modelled from the spec: cosine similarity used by the Scoring & Ranking
Pipeline (recommendation.py, not shipped): (u·v)/(‖u‖‖v‖), defined as 0 when
either vector has zero norm. -/
noncomputable def cosineSim (u v : List ℚ) : ℝ :=
  if normSq u = 0 ∨ normSq v = 0 then 0
  else ((dot u v : ℚ) : ℝ) /
    (Real.sqrt ((normSq u : ℚ) : ℝ) * Real.sqrt ((normSq v : ℚ) : ℝ))

/-- Modelled from the spec: the Jaccard coefficient used by the Scoring &
Ranking Pipeline (recommendation.py, not shipped): |A ∩ B| / |A ∪ B| over
neighbor sets, defined as 0 when the union is empty. -/
def jaccard (A B : Finset String) : ℚ :=
  if A ∪ B = ∅ then 0
  else ((A ∩ B).card : ℚ) / ((A ∪ B).card : ℚ)

/-- Nodes within undirected distance k of s: the ball of radius k. -/
def ballUpTo (g : Snapshot) (s : String) : ℕ → List String
  | 0 => [s]
  | k + 1 =>
    ((ballUpTo g s k) ++ (ballUpTo g s k).flatMap (fun u => neighborList g u)).dedup

/-- Modelled from the spec: undirected shortest-path distance used by the
Structural Metrics Engine (graph_ops.py, not shipped); none when t is not
reachable from s within the snapshot. -/
def distOpt (g : Snapshot) (s t : String) : Option ℕ :=
  (List.range (g.nodes.length + 1)).find? (fun k => (ballUpTo g s k).contains t)

/-- Number of shortest s-t paths, assuming the distance from s to t is the
fuel argument; recursion is on the distance. -/
def sigmaAux (g : Snapshot) (s : String) : ℕ → String → ℕ
  | 0, t => if t = s then 1 else 0
  | d + 1, t =>
    if t = s then 1
    else
      ((neighborList g t).filter (fun u => distOpt g s u = some d)).foldl
        (fun acc u => acc + sigmaAux g s d u) 0

/-- Modelled from the spec: the number of shortest s-t paths σ_st. -/
def sigma (g : Snapshot) (s t : String) : ℕ :=
  match distOpt g s t with
  | none => 0
  | some d => sigmaAux g s d t

/-- Pair dependency of v on the pair (s,t): the fraction of shortest s-t
paths that pass through v. -/
def pairDep (g : Snapshot) (v s t : String) : ℚ :=
  match distOpt g s t, distOpt g s v, distOpt g v t with
  | some dst, some dsv, some dvt =>
    if dsv + dvt = dst then
      ((sigma g s v * sigma g v t : ℕ) : ℚ) / ((sigma g s t : ℕ) : ℚ)
    else 0
  | _, _, _ => 0

/-- Modelled from the spec: betweenness centrality of the Structural Metrics
Engine (graph_ops.py, not shipped) — the sum over all unordered pairs (s,t)
with s ≠ v ≠ t of σ_st(v)/σ_st, computed here over ordered pairs and halved. -/
def betweenness (g : Snapshot) (v : String) : ℚ :=
  ((g.nodes.flatMap (fun s =>
      g.nodes.map (fun t =>
        if s ≠ v ∧ t ≠ v ∧ s ≠ t then pairDep g v s t else 0))).sum) / 2

/-- Modelled from the spec: closeness centrality of the Structural Metrics
Engine (graph_ops.py, not shipped) — (n−1) divided by the sum of distances
to every reachable node, 0 when nothing is reachable. -/
def closeness (g : Snapshot) (v : String) : ℚ :=
  let total : ℕ :=
    (g.nodes.filterMap (fun t => if t = v then none else distOpt g v t)).sum
  if total = 0 then 0 else ((g.nodes.length : ℚ) - 1) / (total : ℚ)

/-- Modelled from the spec: the influence-score formula of the Structural
Metrics Engine (graph_ops.py, not shipped):
(degree×0.4 + betweenness×0.4 + closeness×0.2) × 100. -/
def influenceOf (d b c : ℚ) : ℚ :=
  (d * 0.4 + b * 0.4 + c * 0.2) * 100

/-- Influence score of a node, combining its three centralities. -/
def influenceScore (g : Snapshot) (v : String) : ℚ :=
  influenceOf (degreeCentrality g v) (betweenness g v) (closeness g v)

/-- Value of a single metric: the sentinel "unknown" or a numeric value. -/
inductive MetricVal where
  | unknown
  | val (q : ℚ)
  deriving DecidableEq

/-- The four-field metrics report returned by the metrics API. -/
structure MetricsReport where
  degree_centrality : MetricVal
  betweenness_centrality : MetricVal
  closeness_centrality : MetricVal
  influence_score : MetricVal
  deriving DecidableEq

/-- Modelled from the spec: the metrics call of the Structural Metrics Engine
(graph_ops.py, not shipped) — for a target node absent from the snapshot all
four metrics are the sentinel "unknown" rather than an exception. -/
def metricsFor (g : Snapshot) (target : String) : MetricsReport :=
  if target ∈ g.nodes then
    { degree_centrality := MetricVal.val (degreeCentrality g target)
      betweenness_centrality := MetricVal.val (betweenness g target)
      closeness_centrality := MetricVal.val (closeness g target)
      influence_score := MetricVal.val (influenceScore g target) }
  else
    { degree_centrality := MetricVal.unknown
      betweenness_centrality := MetricVal.unknown
      closeness_centrality := MetricVal.unknown
      influence_score := MetricVal.unknown }

/-- C4: a target absent from the snapshot gets the sentinel "unknown" in all
four fields of the metrics report, and the sentinel is distinguishable from
every numeric value, zero included. -/
theorem metricsFor_absent (g : Snapshot) (t : String) (h : t ∉ g.nodes) :
    ((metricsFor g t).degree_centrality = MetricVal.unknown ∧
     (metricsFor g t).betweenness_centrality = MetricVal.unknown ∧
     (metricsFor g t).closeness_centrality = MetricVal.unknown ∧
     (metricsFor g t).influence_score = MetricVal.unknown) ∧
    (∀ q : ℚ, MetricVal.unknown ≠ MetricVal.val q) := by
  refine ⟨?_, fun q hq => MetricVal.noConfusion hq⟩
  unfold metricsFor
  rw [if_neg h]
  exact ⟨rfl, rfl, rfl, rfl⟩

/-- Witness for C4 at a concrete snapshot with the target absent. -/
theorem metricsFor_absent_witness :
    (((metricsFor ⟨["a"], []⟩ "x").degree_centrality = MetricVal.unknown ∧
      (metricsFor ⟨["a"], []⟩ "x").betweenness_centrality = MetricVal.unknown ∧
      (metricsFor ⟨["a"], []⟩ "x").closeness_centrality = MetricVal.unknown ∧
      (metricsFor ⟨["a"], []⟩ "x").influence_score = MetricVal.unknown) ∧
     (∀ q : ℚ, MetricVal.unknown ≠ MetricVal.val q)) :=
  metricsFor_absent ⟨["a"], []⟩ "x" (by simp)

/-- Translated from ProfileCard.jsx (Network Metrics card): the Activity
Score box renders Math.round(metrics.influence_score || 0); JS Math.round
rounds half toward +∞, which is Mathlib's round. An absent field is modelled
as none and coalesced to 0 like the JS || 0. -/
def profileCardActivityScore (influence : Option ℚ) : ℤ :=
  round (influence.getD 0)

/-- C2: for centralities in [0,1] the influence score follows the weighted
formula, lies in [0,100]; the frontend's displayed Activity Score is the
rounding of the stored value, and the stored value itself is not rounded
(a fractional stored value exists). -/
theorem influence_score_props (d b c : ℚ)
    (hd0 : 0 ≤ d) (hd1 : d ≤ 1) (hb0 : 0 ≤ b) (hb1 : b ≤ 1)
    (hc0 : 0 ≤ c) (hc1 : c ≤ 1) :
    (influenceOf d b c = (d * 0.4 + b * 0.4 + c * 0.2) * 100 ∧
     0 ≤ influenceOf d b c ∧ influenceOf d b c ≤ 100) ∧
    profileCardActivityScore (some (influenceOf d b c)) =
      round (influenceOf d b c) ∧
    influenceOf (1 / 3) 0 0 ≠ ((round (influenceOf (1 / 3) 0 0) : ℤ) : ℚ) := by
  refine ⟨⟨rfl, ?_, ?_⟩, rfl, ?_⟩
  · unfold influenceOf
    nlinarith
  · unfold influenceOf
    nlinarith
  · intro hcontra
    have hval : influenceOf (1 / 3) 0 0 = 40 / 3 := by
      unfold influenceOf; norm_num
    rw [hval] at hcontra
    have hround : round ((40 : ℚ) / 3) = 13 := by
      rw [round_eq]
      norm_num
    rw [hround] at hcontra
    norm_num at hcontra

/-- Witness for C2 at concrete centrality values. -/
theorem influence_score_props_witness :
    ((influenceOf (1 / 2) (1 / 4) 1 =
        ((1 : ℚ) / 2 * 0.4 + (1 : ℚ) / 4 * 0.4 + (1 : ℚ) * 0.2) * 100 ∧
      0 ≤ influenceOf (1 / 2) (1 / 4) 1 ∧ influenceOf (1 / 2) (1 / 4) 1 ≤ 100) ∧
     profileCardActivityScore (some (influenceOf (1 / 2) (1 / 4) 1)) =
       round (influenceOf (1 / 2) (1 / 4) 1) ∧
     influenceOf (1 / 3) 0 0 ≠ ((round (influenceOf (1 / 3) 0 0) : ℤ) : ℚ)) :=
  influence_score_props (1 / 2) (1 / 4) 1 (by norm_num) (by norm_num)
    (by norm_num) (by norm_num) (by norm_num) (by norm_num)

lemma dot_comm (u v : List ℚ) : dot u v = dot v u := by
  unfold dot
  induction u generalizing v with
  | nil => cases v <;> simp
  | cons a u ih =>
    cases v with
    | nil => simp
    | cons b v => simp [List.zipWith, ih, mul_comm]

lemma normSq_nonneg (u : List ℚ) : 0 ≤ normSq u := by
  unfold normSq dot
  induction u with
  | nil => simp
  | cons a u ih =>
    simp only [List.zipWith, List.sum_cons]
    have ha : 0 ≤ a * a := mul_self_nonneg a
    linarith

/-- C7: self-similarity of a vector with nonzero norm is 1, cosine is
symmetric, and a zero-norm argument forces similarity 0. -/
theorem cosineSim_props :
    (∀ u : List ℚ, normSq u ≠ 0 → cosineSim u u = 1) ∧
    (∀ u v : List ℚ, cosineSim u v = cosineSim v u) ∧
    (∀ u v : List ℚ, normSq u = 0 ∨ normSq v = 0 → cosineSim u v = 0) := by
  refine ⟨?_, ?_, ?_⟩
  · intro u hu
    have hpos : (0 : ℝ) < ((normSq u : ℚ) : ℝ) := by
      have h0 : (0 : ℚ) ≤ normSq u := normSq_nonneg u
      have : (0 : ℚ) < normSq u := lt_of_le_of_ne h0 (Ne.symm hu)
      exact_mod_cast this
    unfold cosineSim
    rw [if_neg (by push_neg; exact ⟨hu, hu⟩)]
    rw [Real.mul_self_sqrt (le_of_lt hpos)]
    unfold normSq at hpos ⊢
    field_simp
  · intro u v
    unfold cosineSim
    rw [dot_comm u v]
    by_cases h : normSq u = 0 ∨ normSq v = 0
    · rw [if_pos h, if_pos (Or.symm h)]
    · rw [if_neg h, if_neg (fun hc => h (Or.symm hc)), mul_comm]
  · intro u v h
    unfold cosineSim
    rw [if_pos h]

/-- Witness for C7 at concrete vectors. -/
theorem cosineSim_props_witness :
    cosineSim [1, 0] [1, 0] = 1 ∧
    cosineSim [1, 2] [3, 4] = cosineSim [3, 4] [1, 2] ∧
    cosineSim [0, 0] [3, 4] = 0 := by
  refine ⟨cosineSim_props.1 [1, 0] (by norm_num [normSq, dot]),
    cosineSim_props.2.1 [1, 2] [3, 4],
    cosineSim_props.2.2 [0, 0] [3, 4] (Or.inl (by norm_num [normSq, dot]))⟩

/-- Twice the edge-weight total 2m of Q, as the sum of all node degrees. -/
def twoM (g : Snapshot) : ℚ :=
  ((g.nodes.map (fun v => degree g v)).sum : ℕ)

/-- Modelled from the spec: modularity
Q = (1/2m)·Σ[A_ij − k_i·k_j/2m]·δ(c_i,c_j) of a community assignment,
0 for an edgeless graph. -/
def modularity (g : Snapshot) (c : String → ℕ) : ℚ :=
  if twoM g = 0 then 0
  else (1 / twoM g) *
    ((g.nodes.map (fun i =>
      (g.nodes.map (fun j =>
        ((if adjacent g i j then (1 : ℚ) else 0) -
          (degree g i : ℚ) * (degree g j : ℚ) / twoM g) *
        (if c i = c j then 1 else 0))).sum)).sum)

/-- Reassign one node to a community, leaving all others unchanged. -/
def moveNode (c : String → ℕ) (v : String) (k : ℕ) : String → ℕ :=
  fun w => if w = v then k else c w

/-- Modularity gain of moving node v into community k. -/
def modGain (g : Snapshot) (c : String → ℕ) (v : String) (k : ℕ) : ℚ :=
  modularity g (moveNode c v k) - modularity g c

/-- Modelled from the spec: the best local move of the Louvain-style greedy
(graph_ops.py, not shipped) — the neighboring community with the largest
modularity gain, none when no neighboring community improves Q. -/
def bestMove (g : Snapshot) (c : String → ℕ) (v : String) : Option ℕ :=
  match ((neighborList g v).map c).argmax (fun k => modGain g c v k) with
  | some k => if 0 < modGain g c v k then some k else none
  | none => none

/-- One greedy step: apply the best move of one node, if any. -/
def louvainStep (g : Snapshot) (c : String → ℕ) (v : String) : String → ℕ :=
  match bestMove g c v with
  | some k => moveNode c v k
  | none => c

/-- One local-moving sweep over all nodes. -/
def louvainPass (g : Snapshot) (c : String → ℕ) : String → ℕ :=
  g.nodes.foldl (louvainStep g) c

/-- Every node starts in its own community. -/
def initAssign (g : Snapshot) : String → ℕ := fun v => g.nodes.indexOf v

/-- Modelled from the spec: the community detection of the Structural Metrics
Engine (graph_ops.py, not shipped), Louvain-style greedy: every node starts
in its own community and local-moving sweeps are iterated a bounded number
of rounds. The aggregation-into-super-nodes phase is not modelled; it only
merges whole communities joined by an edge, so the partition and
isolated-singleton invariants proved below are unaffected by it. -/
def louvain (g : Snapshot) : String → ℕ :=
  (louvainPass g)^[g.nodes.length + 1] (initAssign g)

/-- A node is isolated when no edge touches it. -/
def isolated (g : Snapshot) (i : String) : Prop :=
  ∀ e ∈ g.edges, e.src ≠ i ∧ e.tgt ≠ i

lemma neighborList_of_isolated {g : Snapshot} {i : String}
    (hiso : isolated g i) : neighborList g i = [] := by
  rw [List.eq_nil_iff_forall_not_mem]
  intro w hw
  rcases mem_neighborList.1 hw with ⟨_, _, hadj⟩
  rcases adjacent_iff.1 hadj with ⟨e, he, hcase⟩
  rcases hcase with ⟨h1, _⟩ | ⟨_, h2⟩
  · exact (hiso e he).1 h1
  · exact (hiso e he).2 h2

lemma not_neighbor_of_isolated {g : Snapshot} {i : String}
    (hiso : isolated g i) (v : String) : i ∉ neighborList g v := by
  intro hmem
  rcases mem_neighborList.1 hmem with ⟨_, _, hadj⟩
  rcases adjacent_iff.1 hadj with ⟨e, he, hcase⟩
  rcases hcase with ⟨_, h2⟩ | ⟨h1, _⟩
  · exact (hiso e he).2 h2
  · exact (hiso e he).1 h1

/-- The isolated node i sits alone in its community: every other node of the
snapshot carries a different community id. -/
def SingletonInv (g : Snapshot) (i : String) (c : String → ℕ) : Prop :=
  ∀ w ∈ g.nodes, w ≠ i → c w ≠ c i

lemma bestMove_mem {g : Snapshot} {c : String → ℕ} {v : String} {k : ℕ}
    (h : bestMove g c v = some k) : k ∈ (neighborList g v).map c := by
  unfold bestMove at h
  split at h
  · rename_i k0 harg
    split at h
    · injection h with hk
      rw [← hk]
      exact List.argmax_mem (by rw [harg]; rfl)
    · exact absurd h (by simp)
  · exact absurd h (by simp)

lemma singletonInv_step {g : Snapshot} {i : String} (hiso : isolated g i)
    (c : String → ℕ) (v : String) (h : SingletonInv g i c) :
    SingletonInv g i (louvainStep g c v) := by
  cases hbm : bestMove g c v with
  | none =>
    have heq : louvainStep g c v = c := by unfold louvainStep; rw [hbm]
    rw [heq]; exact h
  | some k =>
    have heq : louvainStep g c v = moveNode c v k := by unfold louvainStep; rw [hbm]
    rw [heq]
    have hk := bestMove_mem hbm
    rcases List.mem_map.1 hk with ⟨u, hu, hku⟩
    have hui : u ≠ i := fun h' => not_neighbor_of_isolated hiso v (h' ▸ hu)
    have hun : u ∈ g.nodes := (mem_neighborList.1 hu).1
    have hvi : v ≠ i := by
      intro h'
      rw [h', neighborList_of_isolated hiso] at hu
      exact absurd hu (List.not_mem_nil _)
    have hmi : moveNode c v k i = c i := by
      simp only [moveNode]
      rw [if_neg (fun h' => hvi h'.symm)]
    intro w hw hwne
    rw [hmi]
    simp only [moveNode]
    by_cases hwv : w = v
    · rw [if_pos hwv, ← hku]
      exact h u hun hui
    · rw [if_neg hwv]
      exact h w hw hwne

lemma singletonInv_foldl {g : Snapshot} {i : String} (hiso : isolated g i)
    (l : List String) (c : String → ℕ) (h : SingletonInv g i c) :
    SingletonInv g i (l.foldl (louvainStep g) c) := by
  induction l generalizing c with
  | nil => exact h
  | cons v t ih => exact ih _ (singletonInv_step hiso c v h)

lemma singletonInv_iterate {g : Snapshot} {i : String} (hiso : isolated g i)
    (n : ℕ) (c : String → ℕ) (h : SingletonInv g i c) :
    SingletonInv g i ((louvainPass g)^[n] c) := by
  induction n generalizing c with
  | zero => exact h
  | succ m ih =>
    rw [Function.iterate_succ_apply]
    exact ih _ (singletonInv_foldl hiso g.nodes c h)

lemma singletonInv_init {g : Snapshot} {i : String}
    (hi : i ∈ g.nodes) : SingletonInv g i (initAssign g) := by
  intro w hw hwne heq
  exact hwne ((List.indexOf_inj hw hi).1 heq)

lemma filter_eq_singleton {l : List String} {p : String → Bool} {i : String}
    (hnd : l.Nodup) (hi : i ∈ l) (h : ∀ w ∈ l, (p w = true ↔ w = i)) :
    l.filter p = [i] := by
  induction l with
  | nil => cases hi
  | cons a t ih =>
    rcases List.mem_cons.1 hi with heq | hit
    · rw [List.filter_cons, if_pos ((h a (List.mem_cons_self a t)).2 heq.symm)]
      have ht : t.filter p = [] := by
        rw [List.filter_eq_nil_iff]
        intro w hw hp
        have hwi := (h w (List.mem_cons_of_mem _ hw)).1 hp
        have hwa : w = a := hwi.trans heq
        exact (List.nodup_cons.1 hnd).1 (hwa ▸ hw)
      rw [ht, heq]
    · have hai : a ≠ i := fun h' => (List.nodup_cons.1 hnd).1 (h' ▸ hit)
      rw [List.filter_cons, if_neg (by
        intro hp
        exact hai ((h a (List.mem_cons_self a t)).1 hp))]
      exact ih (List.nodup_cons.1 hnd).2 hit
        (fun w hw => h w (List.mem_cons_of_mem _ hw))

/-- C5: for every snapshot with duplicate-free node ids, the community
assignment computed by the Louvain-style greedy is a partition — community
sizes, summed over the occurring community ids, add up to the node count —
and every isolated node of the snapshot keeps a singleton community of its
own. Every node receives exactly one non-negative id since the assignment is
a total function into ℕ. -/
theorem louvain_partition_props (g : Snapshot) (hnd : g.nodes.Nodup) :
    (∑ b ∈ g.nodes.toFinset.image (louvain g),
        (g.nodes.toFinset.filter (fun v => louvain g v = b)).card =
      g.nodes.length) ∧
    (∀ i ∈ g.nodes, (∀ e ∈ g.edges, e.src ≠ i ∧ e.tgt ≠ i) →
      g.nodes.filter (fun w => louvain g w = louvain g i) = [i]) := by
  constructor
  · have hsum := Finset.card_eq_sum_card_fiberwise
      (f := louvain g) (s := g.nodes.toFinset)
      (t := g.nodes.toFinset.image (louvain g))
      (fun x hx => Finset.mem_image_of_mem _ hx)
    rw [List.toFinset_card_of_nodup hnd] at hsum
    exact hsum.symm
  · intro i hi hiso
    have hinv : SingletonInv g i (louvain g) :=
      singletonInv_iterate hiso _ _ (singletonInv_init hi)
    refine filter_eq_singleton hnd hi ?_
    intro w hw
    constructor
    · intro hp
      by_contra hwne
      exact hinv w hw hwne (of_decide_eq_true hp)
    · intro hwi
      rw [hwi]
      simp

/-- Witness for C5: a three-node snapshot with one edge and an isolated
node c. -/
theorem louvain_partition_props_witness :
    (∑ b ∈ (["a", "b", "c"] : List String).toFinset.image
          (louvain ⟨["a", "b", "c"], [⟨"a", "b", EdgeKind.OWNS⟩]⟩),
        ((["a", "b", "c"] : List String).toFinset.filter
          (fun v => louvain ⟨["a", "b", "c"], [⟨"a", "b", EdgeKind.OWNS⟩]⟩ v = b)).card =
      (["a", "b", "c"] : List String).length) ∧
    (["a", "b", "c"] : List String).filter
      (fun w => louvain ⟨["a", "b", "c"], [⟨"a", "b", EdgeKind.OWNS⟩]⟩ w =
        louvain ⟨["a", "b", "c"], [⟨"a", "b", EdgeKind.OWNS⟩]⟩ "c") = ["c"] :=
  ⟨(louvain_partition_props ⟨["a", "b", "c"], [⟨"a", "b", EdgeKind.OWNS⟩]⟩
      (by simp)).1,
    (louvain_partition_props ⟨["a", "b", "c"], [⟨"a", "b", EdgeKind.OWNS⟩]⟩
      (by simp)).2 "c" (by simp) (by simp)⟩

/-- A recommendation item returned by the pipeline to the caller:
node id, composite score, component scores, and the advisory source flag. -/
structure RecItem where
  node_id : String
  score : ℚ
  components : List (String × ℚ)
  source : String
  deriving DecidableEq

/-- Outcome of the external ranking collaborator call. -/
inductive RankerResponse where
  | ok (ids : List String)
  | unavailable
  | quotaExhausted
  | err
  deriving DecidableEq

/-- Tag a recommendation item with a source flag, leaving the rest intact. -/
def withSource (s : String) (it : RecItem) : RecItem :=
  { it with source := s }

/-- Modelled from the spec: the final step of the Scoring & Ranking Pipeline
(recommendation.py, not shipped). On a successful external ranking the
reordered subset is returned with source "ranked"; when the collaborator is
unavailable, quota-exhausted, or errors, the pipeline's own boosted ordering
is returned unchanged with source "fallback" and no error is surfaced. -/
def finalizeRanking (boosted : List RecItem) (resp : RankerResponse) :
    List RecItem :=
  match resp with
  | RankerResponse.ok ids =>
    ids.filterMap (fun i =>
      (boosted.find? (fun it => it.node_id = i)).map (withSource "ranked"))
  | RankerResponse.unavailable => boosted.map (withSource "fallback")
  | RankerResponse.quotaExhausted => boosted.map (withSource "fallback")
  | RankerResponse.err => boosted.map (withSource "fallback")

/-- C1: on any failing external-ranking response the pipeline returns its
boosted ordering unchanged — same ids, scores and component scores in the
same order — with every item's source flag set to "fallback", and nothing
else of the failure reaches the caller. -/
theorem fallback_on_ranker_failure (boosted : List RecItem)
    (resp : RankerResponse)
    (h : resp = RankerResponse.unavailable ∨ resp = RankerResponse.quotaExhausted ∨
      resp = RankerResponse.err) :
    finalizeRanking boosted resp = boosted.map (withSource "fallback") ∧
    (finalizeRanking boosted resp).map RecItem.node_id =
      boosted.map RecItem.node_id ∧
    (finalizeRanking boosted resp).map RecItem.score = boosted.map RecItem.score ∧
    (finalizeRanking boosted resp).map RecItem.components =
      boosted.map RecItem.components ∧
    ∀ it ∈ finalizeRanking boosted resp, it.source = "fallback" := by
  have heq : finalizeRanking boosted resp = boosted.map (withSource "fallback") := by
    rcases h with h | h | h <;> rw [h] <;> rfl
  refine ⟨heq, ?_, ?_, ?_, ?_⟩
  · rw [heq, List.map_map]; rfl
  · rw [heq, List.map_map]; rfl
  · rw [heq, List.map_map]; rfl
  · intro it hit
    rw [heq] at hit
    rcases List.mem_map.1 hit with ⟨it0, _, rfl⟩
    rfl

/-- Witness for C1 at a concrete boosted list and a quota-exhausted ranker. -/
theorem fallback_on_ranker_failure_witness :
    finalizeRanking [⟨"repo:x", 1 / 2, [("cosine", 1 / 2)], "boosted"⟩]
        RankerResponse.quotaExhausted =
      [⟨"repo:x", 1 / 2, [("cosine", 1 / 2)], "boosted"⟩].map
        (withSource "fallback") ∧
    (finalizeRanking [⟨"repo:x", 1 / 2, [("cosine", 1 / 2)], "boosted"⟩]
        RankerResponse.quotaExhausted).map RecItem.node_id =
      [(⟨"repo:x", 1 / 2, [("cosine", 1 / 2)], "boosted"⟩ : RecItem)].map
        RecItem.node_id ∧
    (finalizeRanking [⟨"repo:x", 1 / 2, [("cosine", 1 / 2)], "boosted"⟩]
        RankerResponse.quotaExhausted).map RecItem.score =
      [(⟨"repo:x", 1 / 2, [("cosine", 1 / 2)], "boosted"⟩ : RecItem)].map
        RecItem.score ∧
    (finalizeRanking [⟨"repo:x", 1 / 2, [("cosine", 1 / 2)], "boosted"⟩]
        RankerResponse.quotaExhausted).map RecItem.components =
      [(⟨"repo:x", 1 / 2, [("cosine", 1 / 2)], "boosted"⟩ : RecItem)].map
        RecItem.components ∧
    ∀ it ∈ finalizeRanking [⟨"repo:x", 1 / 2, [("cosine", 1 / 2)], "boosted"⟩]
        RankerResponse.quotaExhausted, it.source = "fallback" :=
  fallback_on_ranker_failure [⟨"repo:x", 1 / 2, [("cosine", 1 / 2)], "boosted"⟩]
    RankerResponse.quotaExhausted (Or.inr (Or.inl rfl))

/-- Lowercasing, modelling the JS toLowerCase used for case-insensitive
matching (character-wise lowering). -/
def lowerStr (s : String) : String := String.mk (s.data.map Char.toLower)

/-- Does the character sequence hay start with needle? -/
def seqStartsWith : List Char → List Char → Bool
  | [], _ => true
  | _ :: _, [] => false
  | a :: as, b :: bs => a = b && seqStartsWith as bs

/-- Does needle occur as a contiguous subsequence of hay? -/
def containsSeq (needle : List Char) : List Char → Bool
  | [] => needle.isEmpty
  | c :: t => seqStartsWith needle (c :: t) || containsSeq needle t

/-- Substring test, modelling the JS String.includes. -/
def strIncludes (hay needle : String) : Bool := containsSeq needle.data hay.data

/-- Insert an element into a sorted list, keeping earlier equal-key elements
first (stability). -/
def insertSorted {α : Type} (le : α → α → Bool) (a : α) : List α → List α
  | [] => [a]
  | b :: t => if le a b then a :: b :: t else b :: insertSorted le a t

/-- Stable comparator sort, modelling the semantics of a stable sort by a
comparator (JS Array.prototype.sort is specified stable). -/
def stableSort {α : Type} (le : α → α → Bool) : List α → List α
  | [] => []
  | a :: t => insertSorted le a (stableSort le t)

lemma mem_insertSorted {α : Type} (le : α → α → Bool) (a x : α) (l : List α) :
    x ∈ insertSorted le a l ↔ x = a ∨ x ∈ l := by
  induction l with
  | nil => simp [insertSorted]
  | cons b t ih =>
    by_cases h : le a b
    · simp [insertSorted, h]
    · simp only [insertSorted, if_neg h, List.mem_cons, ih]
      tauto

lemma mem_stableSort {α : Type} (le : α → α → Bool) (x : α) (l : List α) :
    x ∈ stableSort le l ↔ x ∈ l := by
  induction l with
  | nil => simp [stableSort]
  | cons a t ih => simp [stableSort, mem_insertSorted, ih]

lemma length_insertSorted {α : Type} (le : α → α → Bool) (a : α) (l : List α) :
    (insertSorted le a l).length = l.length + 1 := by
  induction l with
  | nil => simp [insertSorted]
  | cons b t ih =>
    by_cases h : le a b
    · simp [insertSorted, h]
    · simp [insertSorted, h, ih]

lemma length_stableSort {α : Type} (le : α → α → Bool) (l : List α) :
    (stableSort le l).length = l.length := by
  induction l with
  | nil => rfl
  | cons a t ih => simp [stableSort, length_insertSorted, ih]

lemma pairwise_insertSorted {α : Type} (le : α → α → Bool)
    (htot : ∀ a b, le a b = true ∨ le b a = true)
    (htrans : ∀ a b c, le a b = true → le b c = true → le a c = true)
    (a : α) (l : List α) (h : l.Pairwise (fun x y => le x y = true)) :
    (insertSorted le a l).Pairwise (fun x y => le x y = true) := by
  induction l with
  | nil => simp [insertSorted]
  | cons b t ih =>
    rcases List.pairwise_cons.1 h with ⟨hb, ht⟩
    by_cases hab : le a b
    · rw [insertSorted, if_pos hab]
      refine List.pairwise_cons.2 ⟨?_, h⟩
      intro x hx
      rcases List.mem_cons.1 hx with rfl | hx
      · exact hab
      · exact htrans a b x hab (hb x hx)
    · rw [insertSorted, if_neg hab]
      refine List.pairwise_cons.2 ⟨?_, ih ht⟩
      intro x hx
      rcases (mem_insertSorted le a x t).1 hx with h' | hx
      · rw [h']
        rcases htot a b with h1 | h1
        · exact absurd h1 hab
        · exact h1
      · exact hb x hx

lemma pairwise_stableSort {α : Type} (le : α → α → Bool)
    (htot : ∀ a b, le a b = true ∨ le b a = true)
    (htrans : ∀ a b c, le a b = true → le b c = true → le a c = true)
    (l : List α) :
    (stableSort le l).Pairwise (fun x y => le x y = true) := by
  induction l with
  | nil => simp [stableSort]
  | cons a t ih => exact pairwise_insertSorted le htot htrans a _ ih

/-- A candidate repository node seen by the Candidate Selector. -/
structure RepoCand where
  id : String
  language : String
  description : String
  stars : ℕ
  deriving DecidableEq

/-- Modelled from the spec: the heuristic candidate score of the Candidate
Selector (recommendation.py, not shipped): +10 if the primary language
matches a preferred language, +5 if a topic keyword appears in the
description, +3 if a preferred language name appears in the description,
all case-insensitive. -/
def heuristicScore (prefLangs topics : List String) (r : RepoCand) : ℕ :=
  (if prefLangs.any (fun l => lowerStr l = lowerStr r.language) then 10 else 0) +
  (if topics.any (fun t => strIncludes (lowerStr r.description) (lowerStr t))
    then 5 else 0) +
  (if prefLangs.any (fun l => strIncludes (lowerStr r.description) (lowerStr l))
    then 3 else 0)

/-- Candidate ordering: higher heuristic score first, ties broken by higher
star count, then by node id ascending. -/
def candLE (prefLangs topics : List String) (a b : RepoCand) : Bool :=
  let sa := heuristicScore prefLangs topics a
  let sb := heuristicScore prefLangs topics b
  (sb < sa) || (sb = sa && ((b.stars < a.stars) ||
    (b.stars = a.stars && a.id ≤ b.id)))

/-- The candidate cap of the Candidate Selector. -/
def candidateCap : ℕ := 500

/-- Modelled from the spec: the Candidate Selector (recommendation.py, not
shipped): exclude repositories linked to the target, keep candidates with a
positive heuristic score ordered by score then stars then id, cap at 500;
absence of matches yields an empty list, never an error. -/
def selectCandidates (prefLangs topics excluded : List String)
    (repos : List RepoCand) : List RepoCand :=
  let eligible := repos.filter (fun r => ¬ excluded.contains r.id)
  let matching := eligible.filter
    (fun r => 0 < heuristicScore prefLangs topics r)
  (stableSort (candLE prefLangs topics) matching).take candidateCap

/-- C6: a candidate whose primary language matches a preferred language and
whose description contains a topic keyword scores at least 15 (10 + 5); the
selector yields the empty list, not an error, when no candidate matches —
in particular on an empty repository universe. -/
theorem candidateSelector_props :
    (∀ (prefLangs topics : List String) (r : RepoCand),
      (∃ l ∈ prefLangs, lowerStr l = lowerStr r.language) →
      (∃ t ∈ topics, strIncludes (lowerStr r.description) (lowerStr t) = true) →
      15 ≤ heuristicScore prefLangs topics r) ∧
    (∀ (prefLangs topics excluded : List String) (repos : List RepoCand),
      (∀ r ∈ repos, heuristicScore prefLangs topics r = 0) →
      selectCandidates prefLangs topics excluded repos = []) ∧
    (∀ prefLangs topics excluded : List String,
      selectCandidates prefLangs topics excluded [] = []) := by
  refine ⟨?_, ?_, ?_⟩
  · intro prefLangs topics r hl ht
    unfold heuristicScore
    rcases hl with ⟨l, hlm, hleq⟩
    rcases ht with ⟨t, htm, hteq⟩
    rw [if_pos (List.any_eq_true.2 ⟨l, hlm, by simp [hleq]⟩),
      if_pos (List.any_eq_true.2 ⟨t, htm, by simp [hteq]⟩)]
    by_cases h3 : prefLangs.any
        (fun l => strIncludes (lowerStr r.description) (lowerStr l))
    · rw [if_pos h3]; omega
    · rw [if_neg h3]
  · intro prefLangs topics excluded repos hzero
    unfold selectCandidates
    have hm : (repos.filter (fun r => ¬ excluded.contains r.id)).filter
        (fun r => 0 < heuristicScore prefLangs topics r) = [] := by
      rw [List.filter_eq_nil_iff]
      intro r hr
      have hr0 : r ∈ repos := List.mem_of_mem_filter hr
      simp [hzero r hr0]
    simp only [hm]
    rfl
  · intro prefLangs topics excluded
    rfl

/-- Witness for C6: the "Python" scenario and an empty universe. -/
theorem candidateSelector_props_witness :
    15 ≤ heuristicScore ["Python"] ["machine-learning"]
        ⟨"repo:x", "Python", "A machine-learning toolkit", 3⟩ ∧
    selectCandidates ["Python"] ["machine-learning"] ["user:a"]
        [⟨"repo:y", "", "", 0⟩] = [] ∧
    selectCandidates ["Python"] ["machine-learning"] ["user:a"] [] = [] := by
  refine ⟨candidateSelector_props.1 ["Python"] ["machine-learning"]
      ⟨"repo:x", "Python", "A machine-learning toolkit", 3⟩
      ⟨"Python", by simp, by decide⟩
      ⟨"machine-learning", by simp, by decide⟩,
    candidateSelector_props.2.1 ["Python"] ["machine-learning"] ["user:a"]
      [⟨"repo:y", "", "", 0⟩] ?_,
    candidateSelector_props.2.2 ["Python"] ["machine-learning"] ["user:a"]⟩
  intro r hr
  rcases List.mem_singleton.1 hr with rfl
  decide

/-- A recommendation item as consumed by the TopRecommendations component;
string fields use "" where the JS object has no such property, matching JS
falsiness of both. -/
structure RecoItem where
  node_id : String
  type : String
  label : String
  name : String
  description : String
  features_language : String
  language : String
  score : ℚ
  deriving DecidableEq

/-- Translated from TopRecommendations.jsx: the profile's top languages,
each entry's language lowercased, empty strings dropped. -/
def trUserLangs (top_repo_languages : List (String × ℕ)) : List String :=
  (top_repo_languages.map (fun p => lowerStr p.1)).filter (fun s => s ≠ "")

/-- Translated from TopRecommendations.jsx: the user role string, preferring
prediction.predicted_role over profile.ai_role, lowercased. -/
def trUserRole (predicted_role ai_role : String) : String :=
  lowerStr (if predicted_role ≠ "" then predicted_role else ai_role)

/-- Translated from TopRecommendations.jsx: an item counts as a repository
when its type, lowercased, is repo, github_repo, project or repository. -/
def trIsRepoType (it : RecoItem) : Bool :=
  lowerStr it.type = "repo" || lowerStr it.type = "github_repo" ||
    lowerStr it.type = "project" || lowerStr it.type = "repository"

/-- Translated from TopRecommendations.jsx: the item's language,
features.language preferred over item.language, lowercased. -/
def trLang (it : RecoItem) : String :=
  lowerStr (if it.features_language ≠ "" then it.features_language
    else it.language)

/-- Translated from TopRecommendations.jsx: the item's searchable text,
label, name and description joined and lowercased. -/
def trText (it : RecoItem) : String :=
  lowerStr (it.label ++ " " ++ it.name ++ " " ++ it.description)

/-- Translated from TopRecommendations.jsx: the client-side boost, +0.15 on
a two-way language substring match and +0.2 when the role occurs in the
item's text. -/
def trBoost (userLangs : List String) (userRole : String) (it : RecoItem) :
    ℚ :=
  (if trLang it ≠ "" ∧ userLangs.any (fun l =>
      strIncludes (trLang it) l || strIncludes l (trLang it)) = true
    then 15 / 100 else 0) +
  (if userRole ≠ "" ∧ strIncludes (trText it) userRole = true
    then 2 / 10 else 0)

/-- The boosted score the component sorts by: item score plus boost. -/
def trBoostedScore (userLangs : List String) (userRole : String)
    (it : RecoItem) : ℚ :=
  it.score + trBoost userLangs userRole it

/-- The descending comparator used on boosted scores. -/
def trLE (userLangs : List String) (userRole : String) (a b : RecoItem) :
    Bool :=
  trBoostedScore userLangs userRole b ≤ trBoostedScore userLangs userRole a

/-- Translated from TopRecommendations.jsx: keep repo-type items (all items
when no repo-type item exists), stably sort descending by boosted score,
display the first seven. -/
def trList (userLangs : List String) (userRole : String)
    (items : List RecoItem) : List RecoItem :=
  let repoItems := items.filter trIsRepoType
  let base := if repoItems.isEmpty then items else repoItems
  (stableSort (trLE userLangs userRole) base).take 7

lemma trLE_total (userLangs : List String) (userRole : String) :
    ∀ a b, trLE userLangs userRole a b = true ∨ trLE userLangs userRole b a = true := by
  intro a b
  unfold trLE
  rcases le_total (trBoostedScore userLangs userRole b)
      (trBoostedScore userLangs userRole a) with h | h
  · left; exact decide_eq_true h
  · right; exact decide_eq_true h

lemma trLE_trans (userLangs : List String) (userRole : String) :
    ∀ a b c, trLE userLangs userRole a b = true →
      trLE userLangs userRole b c = true → trLE userLangs userRole a c = true := by
  intro a b c hab hbc
  unfold trLE at hab hbc ⊢
  exact decide_eq_true (le_trans (of_decide_eq_true hbc) (of_decide_eq_true hab))

/-- C9: the rendered recommendation list shows at most seven items, is
ordered by non-increasing boosted score, consists only of repo-type items
whenever the input has one, the client-side boost takes exactly the values
0, +0.15, +0.2 or +0.35, and on a concrete input the rendered order differs
from the API order. -/
theorem topRecommendations_props :
    (∀ (userLangs : List String) (userRole : String) (items : List RecoItem),
      (trList userLangs userRole items).length ≤ 7) ∧
    (∀ (userLangs : List String) (userRole : String) (items : List RecoItem),
      (trList userLangs userRole items).Pairwise (fun a b =>
        trBoostedScore userLangs userRole b ≤
          trBoostedScore userLangs userRole a)) ∧
    (∀ (userLangs : List String) (userRole : String) (items : List RecoItem),
      (∃ it ∈ items, trIsRepoType it = true) →
      ∀ it ∈ trList userLangs userRole items, trIsRepoType it = true) ∧
    (∀ (userLangs : List String) (userRole : String) (it : RecoItem),
      trBoost userLangs userRole it = 0 ∨
      trBoost userLangs userRole it = 15 / 100 ∨
      trBoost userLangs userRole it = 2 / 10 ∨
      trBoost userLangs userRole it = 7 / 20) ∧
    ((trList [] "" [⟨"a", "repo", "", "", "", "", "", 1 / 10⟩,
        ⟨"b", "repo", "", "", "", "", "", 9 / 10⟩]).map RecoItem.node_id ≠
      ([⟨"a", "repo", "", "", "", "", "", 1 / 10⟩,
        ⟨"b", "repo", "", "", "", "", "", 9 / 10⟩] : List RecoItem).map
        RecoItem.node_id) := by
  refine ⟨?_, ?_, ?_, ?_, ?_⟩
  · intro userLangs userRole items
    unfold trList
    exact (List.length_take_le 7 _)
  · intro userLangs userRole items
    have hsorted := pairwise_stableSort (trLE userLangs userRole)
      (trLE_total userLangs userRole) (trLE_trans userLangs userRole)
      (if (items.filter trIsRepoType).isEmpty then items
        else items.filter trIsRepoType)
    have htake := List.Pairwise.sublist (List.take_sublist 7 _) hsorted
    exact htake.imp (fun h => of_decide_eq_true h)
  · intro userLangs userRole items hex it hit
    have hne : items.filter trIsRepoType ≠ [] := by
      rcases hex with ⟨it0, hmem, hrep⟩
      intro hnil
      have : it0 ∈ items.filter trIsRepoType := List.mem_filter.2 ⟨hmem, hrep⟩
      rw [hnil] at this
      exact absurd this (List.not_mem_nil _)
    have hbase : (if (items.filter trIsRepoType).isEmpty then items
        else items.filter trIsRepoType) = items.filter trIsRepoType := by
      rw [if_neg]
      rw [List.isEmpty_iff]
      exact fun h => hne (by exact_mod_cast h)
    unfold trList at hit
    simp only [hbase] at hit
    have hmem : it ∈ stableSort (trLE userLangs userRole)
        (items.filter trIsRepoType) :=
      List.mem_of_mem_take hit
    have hmem2 : it ∈ items.filter trIsRepoType :=
      (mem_stableSort _ it _).1 hmem
    exact (List.mem_filter.1 hmem2).2
  · intro userLangs userRole it
    unfold trBoost
    by_cases h1 : trLang it ≠ "" ∧ userLangs.any (fun l =>
        strIncludes (trLang it) l || strIncludes l (trLang it)) = true
    · by_cases h2 : userRole ≠ "" ∧ strIncludes (trText it) userRole = true
      · rw [if_pos h1, if_pos h2]; right; right; right; norm_num
      · rw [if_pos h1, if_neg h2]; right; left; norm_num
    · by_cases h2 : userRole ≠ "" ∧ strIncludes (trText it) userRole = true
      · rw [if_neg h1, if_pos h2]; right; right; left; norm_num
      · rw [if_neg h1, if_neg h2]; left; norm_num
  · norm_num [trList, stableSort, insertSorted, trLE, trBoostedScore, trBoost,
      trIsRepoType, trLang, trText, lowerStr, List.filter]
    decide

/-- Witness for C9: at a concrete one-item input the rendered list is short
and repo-only, and the concrete reordering disagreement holds. -/
theorem topRecommendations_props_witness :
    (trList ["python"] "" [⟨"a", "repo", "", "", "", "Python", "", 1 / 10⟩]).length ≤ 7 ∧
    (∀ it ∈ trList ["python"] "" [⟨"a", "repo", "", "", "", "Python", "", 1 / 10⟩],
      trIsRepoType it = true) ∧
    ((trList [] "" [⟨"a", "repo", "", "", "", "", "", 1 / 10⟩,
        ⟨"b", "repo", "", "", "", "", "", 9 / 10⟩]).map RecoItem.node_id ≠
      ([⟨"a", "repo", "", "", "", "", "", 1 / 10⟩,
        ⟨"b", "repo", "", "", "", "", "", 9 / 10⟩] : List RecoItem).map
        RecoItem.node_id) :=
  ⟨topRecommendations_props.1 ["python"] ""
      [⟨"a", "repo", "", "", "", "Python", "", 1 / 10⟩],
    topRecommendations_props.2.2.1 ["python"] ""
      [⟨"a", "repo", "", "", "", "Python", "", 1 / 10⟩]
      ⟨⟨"a", "repo", "", "", "", "Python", "", 1 / 10⟩, by simp, by decide⟩,
    topRecommendations_props.2.2.2.2⟩

/-- The enrichment response fields that drive App.js's handleFetch; a missing
github_user_id is modelled as "", matching JS falsiness. -/
structure ProfileData where
  errors : List String
  node_ids_github_user_id : String
  deriving DecidableEq

/-- The frontend state resulting from one handleFetch run. -/
structure AppState where
  error : Option String
  profile : Option ProfileData
  recommendationsRequested : Bool
  predictionRequested : Bool
  deriving DecidableEq

/-- Translated from App.js handleFetch: a response with a non-empty errors
array sets the joined error message, clears the profile and requests
nothing further; otherwise the profile is shown and recommendations and
prediction are requested exactly when node_ids.github_user_id is truthy. -/
def handleFetch (profileData : ProfileData) : AppState :=
  if profileData.errors.length > 0 then
    { error := some (String.intercalate ", " profileData.errors)
      profile := none
      recommendationsRequested := false
      predictionRequested := false }
  else
    let fetch := profileData.node_ids_github_user_id != ""
    { error := none
      profile := some profileData
      recommendationsRequested := fetch
      predictionRequested := fetch }

/-- C10: on a response with non-empty errors the frontend sets the error
message, clears the profile and requests neither recommendations nor
prediction; recommendations are requested exactly when there is no error
and the github user id is present, and prediction is requested exactly
together with recommendations. -/
theorem handleFetch_props (pd : ProfileData) :
    (pd.errors ≠ [] →
      (handleFetch pd).error = some (String.intercalate ", " pd.errors) ∧
      (handleFetch pd).profile = none ∧
      (handleFetch pd).recommendationsRequested = false ∧
      (handleFetch pd).predictionRequested = false) ∧
    ((handleFetch pd).recommendationsRequested = true ↔
      pd.errors = [] ∧ pd.node_ids_github_user_id ≠ "") ∧
    (handleFetch pd).predictionRequested =
      (handleFetch pd).recommendationsRequested := by
  by_cases herr : pd.errors.length > 0
  · have hb : handleFetch pd =
        { error := some (String.intercalate ", " pd.errors)
          profile := none
          recommendationsRequested := false
          predictionRequested := false } := by
      unfold handleFetch; rw [if_pos herr]
    refine ⟨fun _ => ⟨by rw [hb], by rw [hb], by rw [hb], by rw [hb]⟩, ?_, by rw [hb]⟩
    rw [hb]
    simp only [Bool.false_eq_true, false_iff]
    intro hc
    rcases hc with ⟨hnil, _⟩
    rw [hnil] at herr
    exact absurd herr (by simp)
  · have hnil : pd.errors = [] := by
      cases h : pd.errors with
      | nil => rfl
      | cons a t => rw [h] at herr; exact absurd (by simp) herr
    have hb : handleFetch pd =
        { error := none
          profile := some pd
          recommendationsRequested := pd.node_ids_github_user_id != ""
          predictionRequested := pd.node_ids_github_user_id != "" } := by
      unfold handleFetch; rw [if_neg herr]
    refine ⟨fun hc => absurd hnil hc, ?_, by rw [hb]⟩
    rw [hb]
    simp only [bne_iff_ne]
    exact ⟨fun h => ⟨hnil, h⟩, fun h => h.2⟩

/-- Witness for C10 at a concrete failing enrichment response. -/
theorem handleFetch_props_witness :
    (handleFetch ⟨["github fetch failed"], "github:u"⟩).error =
      some (String.intercalate ", " ["github fetch failed"]) ∧
    (handleFetch ⟨["github fetch failed"], "github:u"⟩).profile = none ∧
    (handleFetch ⟨["github fetch failed"], "github:u"⟩).recommendationsRequested
      = false ∧
    (handleFetch ⟨["github fetch failed"], "github:u"⟩).predictionRequested
      = false := by
  have h := handleFetch_props ⟨["github fetch failed"], "github:u"⟩
  exact h.1 (by simp)

/-- C8: the Jaccard coefficient of a non-empty set with itself is 1, and the
Jaccard coefficient of two empty sets is 0. -/
theorem jaccard_props :
    (∀ A : Finset String, A ≠ ∅ → jaccard A A = 1) ∧
    jaccard (∅ : Finset String) (∅ : Finset String) = 0 := by
  constructor
  · intro A hA
    unfold jaccard
    rw [if_neg (by simpa using hA)]
    have hcard : (A.card : ℚ) ≠ 0 := by
      have : A.card ≠ 0 := Finset.card_ne_zero.mpr (Finset.nonempty_iff_ne_empty.mpr hA)
      exact_mod_cast this
    simp [Finset.inter_self, Finset.union_self, div_self hcard]
  · unfold jaccard
    simp

/-- Witness for C8 at a concrete set. -/
theorem jaccard_props_witness :
    jaccard ({"a"} : Finset String) ({"a"} : Finset String) = 1 :=
  jaccard_props.1 {"a"} (by simp)

end SNA
